import Mathlib

/-!
Verification of the redis-go server core against its specification.

Go strings are immutable byte sequences; we embed them as `List Nat`
(each element a byte value).  Machine integers are embedded as `Nat`/`Int`
with explicit `% 2^w` at the points where Go's fixed-width arithmetic
truncates or wraps.  Fallible Go code (returning `(T, error)`) is embedded
as `Option`/`Except`; a Go runtime panic is embedded as `Option.none` of
the surrounding computation.
-/

namespace RedisGo

/-- A Go string / byte slice: a list of byte values. -/
abbrev Str := List Nat

/-- Byte codes of a Lean string literal (ASCII), for readable constants. -/
def strB (s : String) : Str := s.data.map Char.toNat

/-- Decimal digit expansion, most significant first, as ASCII byte codes.
Fuel-based so that it reduces in the kernel; `fuel = n + 1` always suffices. -/
def natDecAux : Nat → Nat → List Nat
  | 0, _ => []
  | fuel + 1, n => if n < 10 then [48 + n] else natDecAux fuel (n / 10) ++ [48 + n % 10]

/-- ASCII decimal rendering of a natural number (Go `fmt.Sprintf "%d"` on unsigned). -/
def natDec (n : Nat) : Str := natDecAux (n + 1) n

/-- ASCII decimal rendering of an integer (Go `%d` on signed). -/
def intDec (i : Int) : Str := if i < 0 then 45 :: natDec i.natAbs else natDec i.natAbs

/-- Parse a big-endian run of ASCII decimal digits; `none` when empty or any
byte is not a digit (Go digit-run parsing inside `strconv`). -/
def parseDigitsBE (l : Str) : Option Nat :=
  if l = [] then none
  else if l.all (fun c => decide (48 ≤ c) && decide (c ≤ 57)) then
    some (l.foldl (fun acc c => acc * 10 + (c - 48)) 0)
  else none

/-- 2^63, the count of nonnegative int64 values. -/
def I63 : Nat := 9223372036854775808

/-- 2^64, the count of uint64 values. -/
def U64 : Nat := 18446744073709551616

/-- Go `strconv.ParseUint(s, 10, 64)` succeeding: digits only, value < 2^64. -/
def parseUintGo (l : Str) : Option Nat :=
  match parseDigitsBE l with
  | none => none
  | some v => if v < U64 then some v else none

/-- Go `u, _ := strconv.ParseUint(s, 10, 64)` with the error discarded:
syntax error yields 0, range error yields the clamped maximum. -/
def parseUintLenient (l : Str) : Nat :=
  match parseDigitsBE l with
  | none => 0
  | some v => if v < U64 then v else U64 - 1

/-- Go `strconv.ParseInt(s, 10, 64)` succeeding: optional sign, digits,
value within int64 range. -/
def parseIntGo (l : Str) : Option Int :=
  match l with
  | [] => none
  | c :: rest =>
    if c = 43 then
      (parseDigitsBE rest).bind (fun v => if v < I63 then some ((v : Int)) else none)
    else if c = 45 then
      (parseDigitsBE rest).bind (fun v => if v ≤ I63 then some (-(v : Int)) else none)
    else
      (parseDigitsBE (c :: rest)).bind (fun v => if v < I63 then some ((v : Int)) else none)

/-- Go `n, _ := strconv.ParseInt(s, 10, 64)` with the error discarded:
syntax error yields 0, range error yields the clamped extremum. -/
def parseIntLenient (l : Str) : Int :=
  match l with
  | [] => 0
  | c :: rest =>
    if c = 43 then
      match parseDigitsBE rest with
      | none => 0
      | some v => if v < I63 then (v : Int) else ((I63 - 1 : Nat) : Int)
    else if c = 45 then
      match parseDigitsBE rest with
      | none => 0
      | some v => if v ≤ I63 then -(v : Int) else -((I63 : Nat) : Int)
    else
      match parseDigitsBE (c :: rest) with
      | none => 0
      | some v => if v < I63 then (v : Int) else ((I63 - 1 : Nat) : Int)

/-- Go `strconv.Atoi` (= `ParseInt(s, 10, 0)` on a 64-bit platform);
range errors are reported as errors, so they map to `none` here. -/
def atoiGo (l : Str) : Option Int := parseIntGo l

/-- Go `strings.Split(s, sep)` for a one-byte separator. -/
def splitOnSep (sep : Nat) : Str → List Str
  | [] => [[]]
  | c :: rest =>
    if c = sep then [] :: splitOnSep sep rest
    else
      match splitOnSep sep rest with
      | [] => [[c]]
      | p :: ps => (c :: p) :: ps

/-- Go `strings.ToUpper` restricted to ASCII (all inputs here are ASCII). -/
def toUpperB (l : Str) : Str :=
  l.map (fun c => if 97 ≤ c ∧ c ≤ 122 then c - 32 else c)

/-! ### Basic lemmas about the decimal machinery -/

theorem natDecAux_fuel (n : Nat) : ∀ fuel, n < fuel → natDecAux fuel n = natDec n := by
  induction n using Nat.strong_induction_on with
  | _ n ih =>
    intro fuel h
    match fuel, h with
    | f + 1, h =>
      by_cases h10 : n < 10
      · simp [natDecAux, natDec, h10]
      · have hd1 : n / 10 < n := Nat.div_lt_self (by omega) (by omega)
        show natDecAux (f + 1) n = natDecAux (n + 1) n
        simp only [natDecAux, if_neg h10]
        rw [ih (n / 10) hd1 f (by omega), ih (n / 10) hd1 n (by omega)]

theorem natDec_step (n : Nat) (h : ¬ n < 10) :
    natDec n = natDec (n / 10) ++ [48 + n % 10] := by
  show natDecAux (n + 1) n = _
  simp only [natDecAux, if_neg h]
  rw [natDecAux_fuel (n / 10) n (Nat.div_lt_self (by omega) (by omega))]

theorem natDec_small (n : Nat) (h : n < 10) : natDec n = [48 + n] := by
  simp [natDec, natDecAux, h]

theorem natDec_ne_nil (n : Nat) : natDec n ≠ [] := by
  by_cases h : n < 10
  · simp [natDec_small n h]
  · rw [natDec_step n h]; simp

theorem natDec_digits (n : Nat) : ∀ c ∈ natDec n, 48 ≤ c ∧ c ≤ 57 := by
  induction n using Nat.strong_induction_on with
  | _ n ih =>
    by_cases h : n < 10
    · rw [natDec_small n h]
      intro c hc
      simp at hc
      omega
    · rw [natDec_step n h]
      intro c hc
      rcases List.mem_append.mp hc with h1 | h2
      · exact ih (n / 10) (by omega) c h1
      · simp at h2
        have := Nat.mod_lt n (show 0 < 10 by omega)
        omega

theorem foldl_digits_append (l : List Nat) (d a : Nat) :
    (l ++ [d]).foldl (fun acc c => acc * 10 + (c - 48)) a
      = (l.foldl (fun acc c => acc * 10 + (c - 48)) a) * 10 + (d - 48) := by
  rw [List.foldl_append]
  rfl

theorem foldl_digits_natDec (n a : Nat) :
    (natDec n).foldl (fun acc c => acc * 10 + (c - 48)) a = a * 10 ^ (natDec n).length + n := by
  induction n using Nat.strong_induction_on generalizing a with
  | _ n ih =>
    by_cases h : n < 10
    · rw [natDec_small n h]
      simp only [List.foldl, List.length_cons, List.length_nil, pow_one, pow_zero]
      omega
    · rw [natDec_step n h, foldl_digits_append, ih (n / 10) (by omega) a]
      rw [List.length_append]
      simp only [List.length_cons, List.length_nil]
      have hm : 48 + n % 10 - 48 = n % 10 := by omega
      rw [hm, pow_add, pow_one, ← Nat.mul_assoc]
      have : n / 10 * 10 + n % 10 = n := by omega
      omega

theorem parseDigitsBE_natDec (n : Nat) : parseDigitsBE (natDec n) = some n := by
  unfold parseDigitsBE
  rw [if_neg (natDec_ne_nil n), if_pos, foldl_digits_natDec n 0]
  · simp
  · rw [List.all_eq_true]
    intro c hc
    have := natDec_digits n c hc
    simp only [Bool.and_eq_true, decide_eq_true_eq]
    omega

theorem parseUintLenient_natDec (n : Nat) (h : n < U64) : parseUintLenient (natDec n) = n := by
  unfold parseUintLenient
  rw [parseDigitsBE_natDec]
  simp [h]

theorem natDec_head_digit (n : Nat) :
    ∃ c l, natDec n = c :: l ∧ 48 ≤ c ∧ c ≤ 57 := by
  match he : natDec n with
  | [] => exact absurd he (natDec_ne_nil n)
  | c :: l =>
    refine ⟨c, l, rfl, ?_⟩
    have := natDec_digits n c (by rw [he]; simp)
    exact this

theorem parseIntLenient_natDec (n : Nat) (h : n < I63) : parseIntLenient (natDec n) = (n : Int) := by
  obtain ⟨c, l, he, hc1, hc2⟩ := natDec_head_digit n
  rw [he]
  show parseIntLenient (c :: l) = (n : Int)
  simp only [parseIntLenient]
  rw [if_neg (by omega : ¬ c = 43), if_neg (by omega : ¬ c = 45), ← he,
    parseDigitsBE_natDec n]
  simp [h]

theorem parseIntGo_natDec (n : Nat) (h : n < I63) : parseIntGo (natDec n) = some ((n : Int)) := by
  obtain ⟨c, l, he, hc1, hc2⟩ := natDec_head_digit n
  rw [he]
  show parseIntGo (c :: l) = some ((n : Int))
  simp only [parseIntGo]
  rw [if_neg (by omega : ¬ c = 43), if_neg (by omega : ¬ c = 45), ← he,
    parseDigitsBE_natDec n]
  simp [h]

theorem parseUintGo_natDec (n : Nat) (h : n < U64) : parseUintGo (natDec n) = some n := by
  unfold parseUintGo
  rw [parseDigitsBE_natDec]
  simp [h]

/-! ### Lemmas about `splitOnSep` -/

theorem splitOnSep_ne_nil (sep : Nat) (l : Str) : splitOnSep sep l ≠ [] := by
  induction l with
  | nil => simp [splitOnSep]
  | cons c rest ih =>
    unfold splitOnSep
    by_cases h : c = sep
    · simp [h]
    · rw [if_neg h]
      match hm : splitOnSep sep rest with
      | [] => simp
      | p :: ps => simp

theorem splitOnSep_no_sep (sep : Nat) (l : Str) (h : sep ∉ l) : splitOnSep sep l = [l] := by
  induction l with
  | nil => rfl
  | cons c rest ih =>
    have hc : c ≠ sep := fun he => h (he ▸ List.mem_cons_self c rest)
    have hrest : sep ∉ rest := fun hm => h (List.mem_cons_of_mem c hm)
    unfold splitOnSep
    rw [if_neg hc, ih hrest]

theorem splitOnSep_append (sep : Nat) (l₁ l₂ : Str) (h : sep ∉ l₁) :
    splitOnSep sep (l₁ ++ sep :: l₂) = l₁ :: splitOnSep sep l₂ := by
  induction l₁ with
  | nil => simp [splitOnSep]
  | cons c rest ih =>
    have hc : c ≠ sep := fun he => h (he ▸ List.mem_cons_self c rest)
    have hrest : sep ∉ rest := fun hm => h (List.mem_cons_of_mem c hm)
    show splitOnSep sep (c :: (rest ++ sep :: l₂)) = (c :: rest) :: splitOnSep sep l₂
    simp only [splitOnSep]
    rw [if_neg hc, ih hrest]

theorem not_sep_natDec (n : Nat) (sep : Nat) (h : sep < 48 ∨ 57 < sep) : sep ∉ natDec n := by
  intro hm
  have := natDec_digits n sep hm
  omega

/-! ## Wire codec (`internal/resp`)

`resp.Value` from `types.go`.  The Go struct carries `Type`, `Str`, `Integer`
and `Array` fields with the type tag selecting which is meaningful; the
parser and encoder never set the `IsNull` field, so the value type is
faithfully a tagged union.  The null bulk string is represented in-band by
the payload `"\x00NULL"` (`NullBulkString` in `encoder.go`). -/

inductive RValue
  | simpleString (s : Str)
  | errorVal (s : Str)
  | integer (i : Int)
  | bulkString (s : Str)
  | array (vs : List RValue)

/-- The in-band marker `"\x00NULL"` used for null bulk strings. -/
def nullMarker : Str := [0, 78, 85, 76, 76]

mutual
/-- `Encoder.Encode` from `encoder.go`: the exact bytes written for a value.
`encodeBulkString` emits `$-1\r\n` when the payload is the null marker,
otherwise `$<len>\r\n<payload>\r\n`; `encodeArray` emits `*<n>\r\n` and then
each element. -/
def encodeVal : RValue → Str
  | .simpleString s => 43 :: (s ++ [13, 10])
  | .errorVal s => 45 :: (s ++ [13, 10])
  | .integer i => 58 :: (intDec i ++ [13, 10])
  | .bulkString s =>
    if s = nullMarker then [36, 45, 49, 13, 10]
    else 36 :: (natDec s.length ++ [13, 10] ++ s ++ [13, 10])
  | .array vs => 42 :: (natDec vs.length ++ [13, 10] ++ encodeValList vs)

/-- Encoding of a sequence of values, in order (the loop in `encodeArray`). -/
def encodeValList : List RValue → Str
  | [] => []
  | v :: vs => encodeVal v ++ encodeValList vs
end

/-- `bufio.ReadString('\n')`: the bytes up to and including the first `'\n'`;
`none` when the input ends first (the parser propagates that error). -/
def readLineRaw : Str → Option (Str × Str)
  | [] => none
  | c :: rest =>
    if c = 10 then some ([10], rest)
    else (readLineRaw rest).map (fun p => (c :: p.1, p.2))

/-- `strings.TrimSuffix(line, "\r\n")`. -/
def trimCRLF (l : Str) : Str :=
  match l.reverse with
  | [] => l
  | [_] => l
  | a :: b :: r => if a = 10 then (if b = 13 then r.reverse else l) else l

/-- `Parser.readLine` from `types.go`. -/
def readLine (l : Str) : Option (Str × Str) :=
  (readLineRaw l).map (fun p => (trimCRLF p.1, p.2))

/-- `io.ReadFull` into a buffer of `n` bytes: `none` on short read. -/
def takeExact (n : Nat) (l : Str) : Option (Str × Str) :=
  if n ≤ l.length then some (l.take n, l.drop n) else none

/-- The `for i := 0; i < count; i++ { p.Parse() }` loop of `parseArray`:
run a one-frame parser `count` times, collecting results in order. -/
def parseStepN (p1 : Str → Option (RValue × Str)) : Nat → Str → Option (List RValue × Str)
  | 0, l => some ([], l)
  | n + 1, l => (p1 l).bind fun q => (parseStepN p1 n q.2).map fun r => (q.1 :: r.1, r.2)

/-- `Parser.Parse` from `types.go`, with fuel bounding the nesting depth of
arrays (the Go recursion is bounded by the frame's structure).  Dispatch on
the leading byte: `+` `-` `:` `$` `*`; any other byte is an error (`none`).
`parseBulkString` treats length `-1` as the null bulk string (yielding the
in-band marker), rejects other negative lengths, and otherwise reads
`len+2` bytes dropping the trailing two; `parseArray` treats count `-1` as
an empty-array value and otherwise parses `count` frames. -/
def parseVal : Nat → Str → Option (RValue × Str)
  | 0, _ => none
  | fuel + 1, l =>
    match l with
    | [] => none
    | c :: rest =>
      if c = 43 then (readLine rest).map (fun p => (RValue.simpleString p.1, p.2))
      else if c = 45 then (readLine rest).map (fun p => (RValue.errorVal p.1, p.2))
      else if c = 58 then
        (readLine rest).bind (fun p => (atoiGo p.1).map (fun i => (RValue.integer i, p.2)))
      else if c = 36 then
        (readLine rest).bind (fun p => (atoiGo p.1).bind (fun len =>
          if len = -1 then some (RValue.bulkString nullMarker, p.2)
          else if len < 0 then none
          else (takeExact (len.toNat + 2) p.2).map
            (fun q => (RValue.bulkString (q.1.take len.toNat), q.2))))
      else if c = 42 then
        (readLine rest).bind (fun p => (atoiGo p.1).bind (fun cnt =>
          if cnt = -1 then some (RValue.array [], p.2)
          else if cnt < 0 then none
          else (parseStepN (fun s => parseVal fuel s) cnt.toNat p.2).map
            (fun q => (RValue.array q.1, q.2))))
      else none

/-! ### The spec-side frame grammar (§4.A of the spec)

A well-formed wire frame, with the null bulk string and the null array as
their own grammar alternatives, exactly as the wire format describes them.
This is the specification's notion of "well-formed frame"; `wireEncode`
below is the reference serialisation written from the spec's words. -/

inductive Frame
  | simple (s : Str)
  | errf (s : Str)
  | intf (i : Int)
  | bulk (s : Str)
  | nullBulk
  | arr (fs : List Frame)
  | nullArr

mutual
/-- Reference serialisation of a frame, written from §4.A of the spec. -/
def wireEncode : Frame → Str
  | .simple s => 43 :: (s ++ [13, 10])
  | .errf s => 45 :: (s ++ [13, 10])
  | .intf i => 58 :: (intDec i ++ [13, 10])
  | .bulk s => 36 :: (natDec s.length ++ [13, 10] ++ s ++ [13, 10])
  | .nullBulk => [36, 45, 49, 13, 10]
  | .arr fs => 42 :: (natDec fs.length ++ [13, 10] ++ wireEncodeList fs)
  | .nullArr => [42, 45, 49, 13, 10]

/-- Serialisation of a frame sequence, in order. -/
def wireEncodeList : List Frame → Str
  | [] => []
  | f :: fs => wireEncode f ++ wireEncodeList fs
end

mutual
/-- Content validity of a frame: line-oriented text fields contain no
newline byte, and integers and lengths fit in int64 (what `%d`/`Atoi`
round-trips; Go slices cannot exceed int64 length). -/
def validFrame : Frame → Bool
  | .simple s => s.all (fun c => c ≠ 10)
  | .errf s => s.all (fun c => c ≠ 10)
  | .intf i => decide (-(I63 : Int) ≤ i) && decide (i < (I63 : Int))
  | .bulk s => decide (s.length < I63)
  | .nullBulk => true
  | .arr fs => decide (fs.length < I63) && validFrameList fs
  | .nullArr => true

/-- Validity of each frame in a sequence. -/
def validFrameList : List Frame → Bool
  | [] => true
  | f :: fs => validFrame f && validFrameList fs
end

mutual
/-- Frames that survive the codec's in-band null conventions: no null-array
subframe, and no bulk payload equal to the `"\x00NULL"` marker. -/
def goodFrame : Frame → Bool
  | .simple _ => true
  | .errf _ => true
  | .intf _ => true
  | .bulk s => decide (s ≠ nullMarker)
  | .nullBulk => true
  | .arr fs => goodFrameList fs
  | .nullArr => false

/-- `goodFrame` on each frame of a sequence. -/
def goodFrameList : List Frame → Bool
  | [] => true
  | f :: fs => goodFrame f && goodFrameList fs
end

mutual
/-- The value the Go parser produces for a frame: nulls collapse to their
in-band representations (`"\x00NULL"` payload, empty array). -/
def toValue : Frame → RValue
  | .simple s => .simpleString s
  | .errf s => .errorVal s
  | .intf i => .integer i
  | .bulk s => .bulkString s
  | .nullBulk => .bulkString nullMarker
  | .arr fs => .array (toValueList fs)
  | .nullArr => .array []

/-- `toValue` mapped over a frame sequence. -/
def toValueList : List Frame → List RValue
  | [] => []
  | f :: fs => toValue f :: toValueList fs
end

/-! ### Round-trip lemmas for the codec -/

theorem readLineRaw_append (l rest : Str) (h : 10 ∉ l) :
    readLineRaw (l ++ 10 :: rest) = some (l ++ [10], rest) := by
  induction l with
  | nil => simp [readLineRaw]
  | cons c t ih =>
    have hc : c ≠ 10 := fun he => h (he ▸ List.mem_cons_self c t)
    have ht : (10 : Nat) ∉ t := fun hm => h (List.mem_cons_of_mem c hm)
    show readLineRaw (c :: (t ++ 10 :: rest)) = some ((c :: t) ++ [10], rest)
    simp only [readLineRaw, if_neg hc]
    rw [ih ht]
    rfl

theorem trimCRLF_crlf (l : Str) : trimCRLF (l ++ [13, 10]) = l := by
  have h : (l ++ [13, 10]).reverse = 10 :: 13 :: l.reverse := by simp
  unfold trimCRLF
  rw [h]
  simp

theorem readLine_crlf (l rest : Str) (h : 10 ∉ l) :
    readLine (l ++ 13 :: 10 :: rest) = some (l, rest) := by
  have h13 : (10 : Nat) ∉ l ++ [13] := by
    intro hm
    rcases List.mem_append.mp hm with h1 | h2
    · exact h h1
    · simp at h2
  have he : l ++ 13 :: 10 :: rest = (l ++ [13]) ++ 10 :: rest := by simp
  rw [readLine, he, readLineRaw_append _ _ h13, Option.map_some']
  have he2 : (l ++ [13]) ++ [10] = l ++ [13, 10] := by simp
  rw [he2, trimCRLF_crlf]

theorem atoiGo_natDec (n : Nat) (h : n < I63) : atoiGo (natDec n) = some ((n : Int)) :=
  parseIntGo_natDec n h

theorem atoiGo_intDec (i : Int) (h1 : -(I63 : Int) ≤ i) (h2 : i < (I63 : Int)) :
    atoiGo (intDec i) = some i := by
  by_cases hneg : i < 0
  · show parseIntGo (intDec i) = some i
    unfold intDec
    rw [if_pos hneg]
    show parseIntGo (45 :: natDec i.natAbs) = some i
    have hna : i.natAbs ≤ I63 := by omega
    simp only [parseIntGo, if_neg (by omega : ¬ (45 : Nat) = 43), if_true,
      parseDigitsBE_natDec, Option.some_bind, if_pos hna]
    congr 1
    omega
  · show parseIntGo (intDec i) = some i
    unfold intDec
    rw [if_neg hneg]
    have hna : i.natAbs < I63 := by omega
    rw [parseIntGo_natDec i.natAbs hna]
    congr 1
    omega

theorem ten_notin_natDec (n : Nat) : (10 : Nat) ∉ natDec n :=
  not_sep_natDec n 10 (Or.inl (by omega))

theorem ten_notin_intDec (i : Int) : (10 : Nat) ∉ intDec i := by
  unfold intDec
  by_cases h : i < 0
  · rw [if_pos h]
    intro hm
    rcases List.mem_cons.mp hm with h1 | h2
    · omega
    · exact ten_notin_natDec _ h2
  · rw [if_neg h]
    exact ten_notin_natDec _

theorem validFrameList_mem {fs : List Frame} (h : validFrameList fs = true) :
    ∀ f ∈ fs, validFrame f = true := by
  induction fs with
  | nil => intro f hf; simp at hf
  | cons g gs ih =>
    intro f hf
    simp only [validFrameList, Bool.and_eq_true] at h
    rcases List.mem_cons.mp hf with h1 | h2
    · exact h1 ▸ h.1
    · exact ih h.2 f h2

theorem goodFrameList_mem {fs : List Frame} (h : goodFrameList fs = true) :
    ∀ f ∈ fs, goodFrame f = true := by
  induction fs with
  | nil => intro f hf; simp at hf
  | cons g gs ih =>
    intro f hf
    simp only [goodFrameList, Bool.and_eq_true] at h
    rcases List.mem_cons.mp hf with h1 | h2
    · exact h1 ▸ h.1
    · exact ih h.2 f h2

theorem toValueList_length (fs : List Frame) : (toValueList fs).length = fs.length := by
  induction fs with
  | nil => rfl
  | cons f fs ih => simp [toValueList, ih]

theorem parseStepN_wireList (p1 : Str → Option (RValue × Str)) (fs : List Frame) :
    ∀ (rest : Str),
    (∀ f ∈ fs, ∀ r, p1 (wireEncode f ++ r) = some (toValue f, r)) →
    parseStepN p1 fs.length (wireEncodeList fs ++ rest) = some (toValueList fs, rest) := by
  induction fs with
  | nil =>
    intro rest h
    simp [wireEncodeList, parseStepN, toValueList]
  | cons f fs ih =>
    intro rest h
    have hf := h f (List.mem_cons_self f fs) (wireEncodeList fs ++ rest)
    simp only [wireEncodeList, List.length_cons, parseStepN, List.append_assoc]
    rw [hf]
    simp only [Option.some_bind]
    rw [ih _ (fun g hm r => h g (List.mem_cons_of_mem f hm) r)]
    simp [toValueList]

theorem sizeOf_mem_lt_arr {f : Frame} {fs : List Frame} (h : f ∈ fs) :
    sizeOf f < sizeOf (Frame.arr fs) := by
  have h1 := List.sizeOf_lt_of_mem h
  have h2 : sizeOf (Frame.arr fs) = 1 + sizeOf fs := by simp
  omega

theorem parseVal_wireEncode : ∀ (n : Nat) (f : Frame), sizeOf f ≤ n → validFrame f = true →
    ∀ (fuel : Nat) (rest : Str), sizeOf f < fuel →
    parseVal fuel (wireEncode f ++ rest) = some (toValue f, rest) := by
  intro n
  induction n using Nat.strong_induction_on with
  | _ n ih =>
    intro f hsz hv fuel rest hfuel
    match fuel, Nat.lt_of_le_of_lt (Nat.zero_le _) hfuel with
    | fu + 1, _ =>
    cases f with
    | simple s =>
      have h10 : (10 : Nat) ∉ s := by
        intro hm
        simp only [validFrame, List.all_eq_true, decide_eq_true_eq] at hv
        exact hv 10 hm rfl
      show parseVal (fu + 1) ((43 :: (s ++ [13, 10])) ++ rest) = some (toValue (.simple s), rest)
      simp only [parseVal, List.cons_append, List.append_assoc, List.nil_append,
        if_true, if_false]
      rw [readLine_crlf s rest h10]
      rfl
    | errf s =>
      have h10 : (10 : Nat) ∉ s := by
        intro hm
        simp only [validFrame, List.all_eq_true, decide_eq_true_eq] at hv
        exact hv 10 hm rfl
      show parseVal (fu + 1) ((45 :: (s ++ [13, 10])) ++ rest) = some (toValue (.errf s), rest)
      simp only [parseVal, List.cons_append, List.append_assoc, List.nil_append,
        if_true, if_false]
      rw [readLine_crlf s rest h10]
      rfl
    | intf i =>
      simp only [validFrame, Bool.and_eq_true, decide_eq_true_eq] at hv
      show parseVal (fu + 1) ((58 :: (intDec i ++ [13, 10])) ++ rest)
        = some (toValue (.intf i), rest)
      simp only [parseVal, List.cons_append, List.append_assoc, List.nil_append,
        if_true, if_false]
      rw [readLine_crlf (intDec i) rest (ten_notin_intDec i)]
      simp only [Option.some_bind]
      rw [atoiGo_intDec i hv.1 hv.2]
      rfl
    | bulk s =>
      simp only [validFrame, decide_eq_true_eq] at hv
      show parseVal (fu + 1)
        ((36 :: (natDec s.length ++ [13, 10] ++ s ++ [13, 10])) ++ rest)
        = some (toValue (.bulk s), rest)
      simp only [parseVal, List.cons_append, List.append_assoc, List.nil_append,
        if_true, if_false]
      rw [readLine_crlf (natDec s.length) _ (ten_notin_natDec _)]
      simp only [Option.some_bind]
      rw [atoiGo_natDec s.length hv]
      simp only [Option.some_bind]
      rw [if_neg (by omega : ¬ ((s.length : Nat) : Int) = -1),
        if_neg (by simp : ¬ ((s.length : Nat) : Int) < 0)]
      have htn : ((s.length : Nat) : Int).toNat = s.length := by omega
      rw [htn]
      have hsplit : s ++ 13 :: 10 :: rest = (s ++ [13, 10]) ++ rest := by simp
      rw [hsplit]
      unfold takeExact
      have hlen2 : (s ++ [13, 10]).length = s.length + 2 := by simp
      have hlen : s.length + 2 ≤ ((s ++ [13, 10]) ++ rest).length := by simp
      rw [if_pos hlen]
      have htake : ((s ++ [13, 10]) ++ rest).take (s.length + 2) = s ++ [13, 10] := by
        rw [← hlen2, List.take_left]
      have hdrop : ((s ++ [13, 10]) ++ rest).drop (s.length + 2) = rest := by
        rw [← hlen2, List.drop_left]
      simp only [Option.map_some', htake, hdrop]
      have htake2 : (s ++ [13, 10]).take s.length = s := by
        rw [List.take_append_of_le_length (Nat.le_refl _), List.take_length]
      rw [htake2]
      rfl
    | nullBulk =>
      show parseVal (fu + 1) ([36, 45, 49, 13, 10] ++ rest) = some (toValue .nullBulk, rest)
      have he : ([36, 45, 49, 13, 10] : Str) ++ rest = 36 :: ([45, 49] ++ 13 :: 10 :: rest) := by
        simp
      rw [he]
      simp only [parseVal, if_true, if_false]
      rw [readLine_crlf [45, 49] rest (by decide)]
      simp only [Option.some_bind]
      rw [show atoiGo [45, 49] = some (-1) from rfl]
      simp only [Option.some_bind, if_pos rfl]
      rfl
    | arr fs =>
      simp only [validFrame, Bool.and_eq_true, decide_eq_true_eq] at hv
      show parseVal (fu + 1)
        ((42 :: (natDec fs.length ++ [13, 10] ++ wireEncodeList fs)) ++ rest)
        = some (toValue (.arr fs), rest)
      simp only [parseVal, List.cons_append, List.append_assoc, List.nil_append,
        if_true, if_false]
      rw [readLine_crlf (natDec fs.length) _ (ten_notin_natDec _)]
      simp only [Option.some_bind]
      rw [atoiGo_natDec fs.length hv.1]
      simp only [Option.some_bind]
      rw [if_neg (by omega : ¬ ((fs.length : Nat) : Int) = -1),
        if_neg (by simp : ¬ ((fs.length : Nat) : Int) < 0)]
      have htn : ((fs.length : Nat) : Int).toNat = fs.length := by omega
      rw [htn]
      rw [parseStepN_wireList _ fs rest ?_]
      · rfl
      · intro g hg r
        have hszg : sizeOf g < sizeOf (Frame.arr fs) := sizeOf_mem_lt_arr hg
        exact ih (sizeOf g) (by omega) g (Nat.le_refl _)
          (validFrameList_mem hv.2 g hg) fu r (by omega)
    | nullArr =>
      show parseVal (fu + 1) ([42, 45, 49, 13, 10] ++ rest) = some (toValue .nullArr, rest)
      have he : ([42, 45, 49, 13, 10] : Str) ++ rest = 42 :: ([45, 49] ++ 13 :: 10 :: rest) := by
        simp
      rw [he]
      simp only [parseVal, if_true, if_false]
      rw [readLine_crlf [45, 49] rest (by decide)]
      simp only [Option.some_bind]
      rw [show atoiGo [45, 49] = some (-1) from rfl]
      simp only [Option.some_bind, if_pos rfl]
      rfl

theorem encodeValList_toValueList (fs : List Frame)
    (h : ∀ f ∈ fs, encodeVal (toValue f) = wireEncode f) :
    encodeValList (toValueList fs) = wireEncodeList fs := by
  induction fs with
  | nil => rfl
  | cons f fs ih =>
    simp only [toValueList, encodeValList, wireEncodeList]
    rw [h f (List.mem_cons_self f fs), ih (fun g hg => h g (List.mem_cons_of_mem f hg))]

theorem encodeVal_toValue : ∀ (n : Nat) (f : Frame), sizeOf f ≤ n → goodFrame f = true →
    encodeVal (toValue f) = wireEncode f := by
  intro n
  induction n using Nat.strong_induction_on with
  | _ n ih =>
    intro f hsz hg
    cases f with
    | simple s => rfl
    | errf s => rfl
    | intf i => rfl
    | bulk s =>
      simp only [goodFrame, decide_eq_true_eq] at hg
      show encodeVal (.bulkString s) = wireEncode (.bulk s)
      simp only [encodeVal, if_neg hg]
      rfl
    | nullBulk =>
      show encodeVal (.bulkString nullMarker) = wireEncode .nullBulk
      rfl
    | arr fs =>
      simp only [goodFrame] at hg
      show encodeVal (.array (toValueList fs)) = wireEncode (.arr fs)
      simp only [encodeVal, wireEncode, toValueList_length]
      rw [encodeValList_toValueList fs ?_]
      intro g hgm
      have hszg : sizeOf g < sizeOf (Frame.arr fs) := sizeOf_mem_lt_arr hgm
      exact ih (sizeOf g) (by omega) g (Nat.le_refl _) (goodFrameList_mem hg g hgm)
    | nullArr => simp [goodFrame] at hg

/-! ## Storage, string commands and handlers

Two storage implementations appear in the repository: the string-valued
`Storage` of `internal/storage/storage.go` (used by the `handlers.go`
registry), and the `interface{}`-valued `Storage` of `src/unnamed/part_004`
(used by the command objects, holding strings and streams).  Both share the
same expiry logic in `Get`.  Time is embedded as `Int` nanoseconds;
`time.Now().After(t)` is `t < now`. -/

/-- Association-list update: `m[key] = v` on a Go map. -/
def mapSet {α : Type} : List (Str × α) → Str → α → List (Str × α)
  | [], k, v => [(k, v)]
  | (k', v') :: rest, k, v =>
    if k' = k then (k, v) :: rest else (k', v') :: mapSet rest k v

/-- Association-list lookup: `m[key]` on a Go map. -/
def mapGet {α : Type} : List (Str × α) → Str → Option α
  | [], _ => none
  | (k', v') :: rest, k => if k' = k then some v' else mapGet rest k

/-- Association-list removal: `delete(m, key)` on a Go map. -/
def mapDel {α : Type} : List (Str × α) → Str → List (Str × α)
  | [], _ => []
  | (k', v') :: rest, k => if k' = k then mapDel rest k else (k', v') :: mapDel rest k

/-- `storage.Entry` from `storage.go`: a string value with optional expiry. -/
structure EntryS where
  value : Str
  expiration : Option Int

/-- The state of the string-valued `storage.Storage` map. -/
abbrev StorageS := List (Str × EntryS)

/-- `entry.Expiration != nil && time.Now().After(*entry.Expiration)`. -/
def entryExpiredS (e : EntryS) (now : Int) : Bool :=
  match e.expiration with
  | none => false
  | some t => decide (t < now)

/-- `Storage.Set` from `storage.go`: unconditional write. -/
def storageSetS (st : StorageS) (k v : Str) (exp : Option Int) : StorageS :=
  mapSet st k ⟨v, exp⟩

/-- `Storage.Get` from `storage.go`: missing key reports absent; an expired
entry is deleted and reported absent; otherwise the value is returned.
The result pairs Go's `(value, ok)` with the post-call map state. -/
def storageGetS (st : StorageS) (k : Str) (now : Int) : (Str × Bool) × StorageS :=
  match mapGet st k with
  | none => (([], false), st)
  | some e =>
    if entryExpiredS e now then (([], false), mapDel st k)
    else ((e.value, true), st)

/-- `Storage.Delete` from `storage.go`. -/
def storageDelS (st : StorageS) (k : Str) : StorageS := mapDel st k

/-- `Registry.handleGet` from `handlers.go`: arity check, then `Get`;
absent keys answer the null bulk string. -/
def handleGetS (args : List Str) (now : Int) (st : StorageS) : RValue × StorageS :=
  if args.length ≠ 1 then
    (.errorVal (strB "ERR wrong number of arguments for 'get' command"), st)
  else
    let key := args.headD []
    let r := storageGetS st key now
    if r.1.2 = false then (.bulkString nullMarker, r.2)
    else (.bulkString r.1.1, r.2)

/-- The option-scanning loop of `SetCommand.Execute` (`string.go`, identical
in `Registry.handleSet` of `handlers.go`): scan tokens after key and value;
`EX`/`PX` (case-insensitive) consume one argument each and set an absolute
expiry, a trailing `EX`/`PX` is a syntax error, a non-integer or
non-positive amount is an invalid expire time, and any other token is a
syntax error.  Later options overwrite earlier ones. -/
def setOptLoop (now : Int) : List Str → Option Int → Except Str (Option Int)
  | [], exp => .ok exp
  | o :: rest, exp =>
    let option := toUpperB o
    if option = strB "EX" then
      match rest with
      | [] => .error (strB "ERR syntax error")
      | a :: rest2 =>
        match atoiGo a with
        | none => .error (strB "ERR invalid expire time in set")
        | some secs =>
          if secs ≤ 0 then .error (strB "ERR invalid expire time in set")
          else setOptLoop now rest2 (some (now + secs * 1000000000))
    else if option = strB "PX" then
      match rest with
      | [] => .error (strB "ERR syntax error")
      | a :: rest2 =>
        match atoiGo a with
        | none => .error (strB "ERR invalid expire time in set")
        | some ms =>
          if ms ≤ 0 then .error (strB "ERR invalid expire time in set")
          else setOptLoop now rest2 (some (now + ms * 1000000))
    else .error (strB "ERR syntax error")

/-- `SetCommand.Execute` from `string.go` (same logic as `handleSet` in
`handlers.go`): arity check, option scan, then store and answer `+OK`. -/
def handleSetS (args : List Str) (now : Int) (st : StorageS) : RValue × StorageS :=
  if args.length < 2 then
    (.errorVal (strB "ERR wrong number of arguments for 'set' command"), st)
  else
    let key := args.headD []
    let value := (args.drop 1).headD []
    match setOptLoop now (args.drop 2) none with
    | .error e => (.errorVal e, st)
    | .ok exp => (.simpleString (strB "OK"), storageSetS st key value exp)

/-- One client-visible storage operation on the string storage. -/
inductive OpS
  | set (k v : Str) (exp : Option Int)
  | del (k : Str)
  | get (k : Str) (now : Int)

/-- State transition of one operation (the value/ok results are dropped). -/
def applyOpS (st : StorageS) : OpS → StorageS
  | .set k v exp => storageSetS st k v exp
  | .del k => storageDelS st k
  | .get k now => (storageGetS st k now).2

/-- Whether an operation writes (overwrites or deletes) the given key. -/
def opWritesK : OpS → Str → Bool
  | .set k' _ _, k => decide (k' = k)
  | .del k', k => decide (k' = k)
  | .get _ _, _ => false

theorem mapGet_mapSet_self {α : Type} (m : List (Str × α)) (k : Str) (v : α) :
    mapGet (mapSet m k v) k = some v := by
  induction m with
  | nil => simp [mapSet, mapGet]
  | cons p rest ih =>
    obtain ⟨k', v'⟩ := p
    by_cases h : k' = k
    · simp [mapSet, mapGet, h]
    · simp [mapSet, mapGet, h, ih]

theorem mapGet_mapSet_ne {α : Type} (m : List (Str × α)) {k' k : Str} (v : α) (h : k' ≠ k) :
    mapGet (mapSet m k' v) k = mapGet m k := by
  induction m with
  | nil => simp [mapSet, mapGet, h]
  | cons p rest ih =>
    obtain ⟨k0, v0⟩ := p
    by_cases h0 : k0 = k'
    · subst h0
      simp [mapSet, mapGet, h]
    · simp only [mapSet, if_neg h0, mapGet]
      by_cases h1 : k0 = k
      · simp [h1]
      · simp [h1, ih]

theorem mapGet_mapDel_ne {α : Type} (m : List (Str × α)) {k' k : Str} (h : k' ≠ k) :
    mapGet (mapDel m k') k = mapGet m k := by
  induction m with
  | nil => simp [mapDel, mapGet]
  | cons p rest ih =>
    obtain ⟨k0, v0⟩ := p
    by_cases h0 : k0 = k'
    · subst h0
      simp [mapDel, mapGet, h, ih]
    · simp only [mapDel, if_neg h0, mapGet]
      by_cases h1 : k0 = k
      · simp [h1]
      · simp [h1, ih]

theorem applyOpS_preserves (st : StorageS) (op : OpS) (k v : Str)
    (hw : opWritesK op k = false) (hk : mapGet st k = some ⟨v, none⟩) :
    mapGet (applyOpS st op) k = some ⟨v, none⟩ := by
  cases op with
  | set k' v' exp =>
    simp only [opWritesK, decide_eq_false_iff_not] at hw
    rw [applyOpS, storageSetS, mapGet_mapSet_ne _ _ hw, hk]
  | del k' =>
    simp only [opWritesK, decide_eq_false_iff_not] at hw
    rw [applyOpS, storageDelS, mapGet_mapDel_ne _ hw, hk]
  | get k' now =>
    rw [applyOpS]
    unfold storageGetS
    by_cases h : k' = k
    · subst h
      rw [hk]
      simp [entryExpiredS, hk]
    · match hm : mapGet st k' with
      | none => simpa using hk
      | some e =>
        by_cases he : entryExpiredS e now = true
        · simp only [hm, he, if_true]
          rw [mapGet_mapDel_ne _ h, hk]
        · simp only [hm, Bool.not_eq_true] at he ⊢
          rw [he]
          simpa using hk

/-- C1: after `SET k v` with no options (stored without expiry), a later
`GET k` answers `v` as a bulk string, across any sequence of further
operations none of which overwrites or deletes `k` (with no expiry there is
no expiry instant to pass). -/
theorem set_get_roundtrip (k v : Str) (ops : List OpS)
    (hops : ∀ op ∈ ops, opWritesK op k = false)
    (st : StorageS) (now : Int) :
    (handleGetS [k] now (ops.foldl applyOpS (storageSetS st k v none))).1
      = RValue.bulkString v := by
  have hstep : ∀ (l : List OpS) (st0 : StorageS), mapGet st0 k = some ⟨v, none⟩ →
      (∀ op ∈ l, opWritesK op k = false) →
      mapGet (l.foldl applyOpS st0) k = some ⟨v, none⟩ := by
    intro l
    induction l with
    | nil => intro st0 h _; exact h
    | cons op rest ih =>
      intro st0 h hl
      simp only [List.foldl_cons]
      exact ih (applyOpS st0 op)
        (applyOpS_preserves st0 op k v (hl op (List.mem_cons_self _ _)) h)
        (fun o ho => hl o (List.mem_cons_of_mem _ ho))
  have hinv := hstep ops (storageSetS st k v none) (mapGet_mapSet_self st k ⟨v, none⟩) hops
  have h1 : handleGetS [k] now (ops.foldl applyOpS (storageSetS st k v none))
      = (let r := storageGetS (ops.foldl applyOpS (storageSetS st k v none)) k now
         if r.1.2 = false then (RValue.bulkString nullMarker, r.2)
         else (RValue.bulkString r.1.1, r.2)) := rfl
  rw [h1]
  unfold storageGetS
  rw [hinv]
  simp [entryExpiredS]

/-- C1 (witness): `SET a 1`, then `SET b 2` and a `GET b` in between, then
`GET a` still answers the bulk string `1`. -/
theorem set_get_roundtrip_witness :
    (handleGetS [strB "a"] 7
      (([OpS.set (strB "b") (strB "2") none, OpS.get (strB "b") 7]).foldl applyOpS
        (storageSetS [] (strB "a") (strB "1") none))).1
      = RValue.bulkString (strB "1") :=
  set_get_roundtrip (strB "a") (strB "1")
    [OpS.set (strB "b") (strB "2") none, OpS.get (strB "b") 7]
    (by intro op hop
        rcases List.mem_cons.mp hop with h | h
        · subst h; decide
        · rcases List.mem_cons.mp h with h2 | h2
          · subst h2; decide
          · simp at h2)
    [] 7

/-- C2 (amended): for every well-formed frame containing no null-array
subframe and no bulk-string subframe whose payload is the in-band marker
`"\x00NULL"`, re-encoding the parse result reproduces exactly the original
bytes (`fuel` bounds the array-nesting depth of the Go recursion). -/
theorem encode_parse_roundtrip (f : Frame) (hv : validFrame f = true)
    (hg : goodFrame f = true) (fuel : Nat) (hfuel : sizeOf f < fuel) :
    (parseVal fuel (wireEncode f)).map (fun p => encodeVal p.1 ++ p.2)
      = some (wireEncode f) := by
  have hp := parseVal_wireEncode (sizeOf f) f (Nat.le_refl _) hv fuel [] hfuel
  rw [List.append_nil] at hp
  rw [hp, Option.map_some', encodeVal_toValue (sizeOf f) f (Nat.le_refl _) hg,
    List.append_nil]

/-- C2 (witness): the two-element array `["hi", null bulk]` round-trips
through parse-then-encode byte-for-byte. -/
theorem encode_parse_roundtrip_witness :
    (parseVal 300 (wireEncode (Frame.arr [Frame.bulk [104, 105], Frame.nullBulk]))).map
      (fun p => encodeVal p.1 ++ p.2)
      = some (wireEncode (Frame.arr [Frame.bulk [104, 105], Frame.nullBulk])) :=
  encode_parse_roundtrip (Frame.arr [Frame.bulk [104, 105], Frame.nullBulk])
    (by decide) (by decide) 300 (by decide)

/-- C2 (counterexample): the null array `*-1\r\n` is a well-formed frame,
but the parser yields the empty-array value, which the encoder writes back
as `*0\r\n`, not the original bytes. -/
theorem encode_parse_roundtrip_cex :
    validFrame Frame.nullArr = true ∧
    (parseVal 2 (wireEncode Frame.nullArr)).map (fun p => encodeVal p.1 ++ p.2)
      ≠ some (wireEncode Frame.nullArr) := by
  constructor
  · rfl
  · decide

/-- C4 (amended): option scanning of `SET` — an option token other than
`EX`/`PX` (case-insensitively) is a syntax error; a trailing `EX`/`PX` with
no argument is a syntax error; an `EX`/`PX` amount that `Atoi` rejects or
that is not strictly positive is an invalid expire time; with no options,
or a single valid `EX`/`PX` amount, the key is stored (with the absolute
expiry computed from seconds resp. milliseconds) and `+OK` is answered. -/
theorem set_options_spec (k v o a : Str) (opts : List Str) (now : Int) (st : StorageS) :
    (toUpperB o ≠ strB "EX" → toUpperB o ≠ strB "PX" →
      handleSetS (k :: v :: o :: opts) now st
        = (.errorVal (strB "ERR syntax error"), st)) ∧
    ((toUpperB o = strB "EX" ∨ toUpperB o = strB "PX") →
      handleSetS [k, v, o] now st = (.errorVal (strB "ERR syntax error"), st)) ∧
    ((toUpperB o = strB "EX" ∨ toUpperB o = strB "PX") →
      (atoiGo a = none ∨ ∃ n, atoiGo a = some n ∧ n ≤ 0) →
      handleSetS (k :: v :: o :: a :: opts) now st
        = (.errorVal (strB "ERR invalid expire time in set"), st)) ∧
    (handleSetS [k, v] now st = (.simpleString (strB "OK"), storageSetS st k v none)) ∧
    (toUpperB o = strB "EX" → ∀ n : Int, atoiGo a = some n → 0 < n →
      handleSetS [k, v, o, a] now st
        = (.simpleString (strB "OK"), storageSetS st k v (some (now + n * 1000000000)))) ∧
    (toUpperB o = strB "PX" → ∀ n : Int, atoiGo a = some n → 0 < n →
      handleSetS [k, v, o, a] now st
        = (.simpleString (strB "OK"), storageSetS st k v (some (now + n * 1000000)))) := by
  refine ⟨?_, ?_, ?_, ?_, ?_, ?_⟩
  · intro hex hpx
    unfold handleSetS
    rw [if_neg (by simp)]
    show (match setOptLoop now (o :: opts) none with
      | .error e => (RValue.errorVal e, st)
      | .ok exp => (RValue.simpleString (strB "OK"), storageSetS st k v exp)) = _
    unfold setOptLoop
    rw [if_neg hex, if_neg hpx]
  · rintro (hex | hpx)
    · unfold handleSetS
      rw [if_neg (by simp)]
      show (match setOptLoop now [o] none with
        | .error e => (RValue.errorVal e, st)
        | .ok exp => (RValue.simpleString (strB "OK"), storageSetS st k v exp)) = _
      unfold setOptLoop
      rw [if_pos hex]
    · unfold handleSetS
      rw [if_neg (by simp)]
      show (match setOptLoop now [o] none with
        | .error e => (RValue.errorVal e, st)
        | .ok exp => (RValue.simpleString (strB "OK"), storageSetS st k v exp)) = _
      unfold setOptLoop
      by_cases hex : toUpperB o = strB "EX"
      · rw [if_pos hex]
      · rw [if_neg hex, if_pos hpx]
  · rintro hopt hbad
    unfold handleSetS
    rw [if_neg (by simp)]
    show (match setOptLoop now (o :: a :: opts) none with
      | .error e => (RValue.errorVal e, st)
      | .ok exp => (RValue.simpleString (strB "OK"), storageSetS st k v exp)) = _
    unfold setOptLoop
    rcases hopt with hex | hpx
    · rw [if_pos hex]
      dsimp only
      rcases hbad with hna | ⟨n, hn, hle⟩
      · rw [hna]
      · rw [hn]
        simp [hle]
    · by_cases hex : toUpperB o = strB "EX"
      · rw [if_pos hex]
        dsimp only
        rcases hbad with hna | ⟨n, hn, hle⟩
        · rw [hna]
        · rw [hn]
          simp [hle]
      · rw [if_neg hex, if_pos hpx]
        dsimp only
        rcases hbad with hna | ⟨n, hn, hle⟩
        · rw [hna]
        · rw [hn]
          simp [hle]
  · rfl
  · intro hex n hn hpos
    unfold handleSetS
    rw [if_neg (by simp)]
    show (match setOptLoop now [o, a] none with
      | .error e => (RValue.errorVal e, st)
      | .ok exp => (RValue.simpleString (strB "OK"), storageSetS st k v exp)) = _
    unfold setOptLoop
    rw [if_pos hex]
    dsimp only
    rw [hn]
    dsimp only
    rw [if_neg (by omega : ¬ n ≤ 0)]
    rfl
  · intro hpx n hn hpos
    unfold handleSetS
    rw [if_neg (by simp)]
    show (match setOptLoop now [o, a] none with
      | .error e => (RValue.errorVal e, st)
      | .ok exp => (RValue.simpleString (strB "OK"), storageSetS st k v exp)) = _
    unfold setOptLoop
    by_cases hex : toUpperB o = strB "EX"
    · have : toUpperB o ≠ strB "PX" := by rw [hex]; decide
      exact absurd hpx this
    · rw [if_neg hex, if_pos hpx]
      dsimp only
      rw [hn]
      dsimp only
      rw [if_neg (by omega : ¬ n ≤ 0)]
      rfl

/-- C4 (witness): `SET k v px 100` at time 0 stores the key with absolute
expiry 100 ms and answers `+OK`. -/
theorem set_options_spec_witness :
    handleSetS [strB "k", strB "v", strB "px", strB "100"] 0 []
      = (.simpleString (strB "OK"),
         storageSetS [] (strB "k") (strB "v") (some 100000000)) :=
  (set_options_spec (strB "k") (strB "v") (strB "px") (strB "100") [] 0 []).2.2.2.2.2
    (by decide) 100 (by decide) (by decide)

/-- C4 (counterexample): `SET a 1 EX` (with `EX` as the last token) answers
the syntax-error frame, not `+OK` — the claim's case split does not cover a
trailing `EX`/`PX` without an amount. -/
theorem set_options_cex :
    (handleSetS [strB "a", strB "1", strB "EX"] 0 []).1
        = RValue.errorVal (strB "ERR syntax error") ∧
    (handleSetS [strB "a", strB "1", strB "EX"] 0 []).1
        ≠ RValue.simpleString (strB "OK") := by
  constructor
  · rfl
  · intro h
    rw [show (handleSetS [strB "a", strB "1", strB "EX"] 0 []).1
        = RValue.errorVal (strB "ERR syntax error") from rfl] at h
    exact RValue.noConfusion h

/-- C9: the encoder writes `$-1\r\n` exactly for the bulk payload
`"\x00NULL"`; the parser turns `$-1\r\n` into that payload; and `GET` of a
key holding the stored value `"\x00NULL"` is encoded on the wire exactly
like `GET` of an absent key — both as the null bulk string. -/
theorem null_sentinel_roundtrip :
    (∀ s : Str, encodeVal (.bulkString s) = [36, 45, 49, 13, 10] ↔ s = nullMarker) ∧
    parseVal 1 [36, 45, 49, 13, 10] = some (.bulkString nullMarker, []) ∧
    encodeVal (handleGetS [strB "k"] 0 (storageSetS [] (strB "k") nullMarker none)).1
      = [36, 45, 49, 13, 10] ∧
    encodeVal (handleGetS [strB "absent"] 0 (storageSetS [] (strB "k") nullMarker none)).1
      = [36, 45, 49, 13, 10] := by
  refine ⟨?_, rfl, rfl, rfl⟩
  intro s
  constructor
  · intro h
    by_contra hne
    rw [show encodeVal (.bulkString s)
        = if s = nullMarker then [36, 45, 49, 13, 10]
          else 36 :: (natDec s.length ++ [13, 10] ++ s ++ [13, 10]) from rfl,
      if_neg hne] at h
    obtain ⟨c, l, he, hc1, hc2⟩ := natDec_head_digit s.length
    rw [he] at h
    have : c = 45 := by
      have := List.cons.injEq 36 ((c :: l) ++ [13, 10] ++ s ++ [13, 10]) 36 [45, 49, 13, 10]
      rw [this] at h
      have h2 := h.2
      simp only [List.cons_append, List.append_assoc] at h2
      exact (List.cons.injEq _ _ _ _ ▸ h2).1
    omega
  · intro h
    rw [h]
    rfl

/-! ## The interface-valued storage (`src/unnamed/part_004`), KEYS and TYPE

This second `storage.Storage` revision holds `interface{}` values — strings
or `*storage.Stream` — with the same lazy-expiry `Get`.  Its `Keys` skips
expired entries while scanning but, unlike `Get`, holds only the read lock
and never deletes them. -/

/-- `storage.StreamEntry` from `src/unnamed/part_005`. -/
structure SEntry where
  id : Str
  fields : List (Str × Str)

/-- A stored `interface{}` value: a string or a `*storage.Stream`. -/
inductive StoredVal
  | str (s : Str)
  | stream (entries : List SEntry)

/-- `entry` from `src/unnamed/part_004`: a value with optional expiry. -/
structure EntryV where
  value : StoredVal
  expiry : Option Int

/-- The state of the interface-valued `storage.Storage` map. -/
abbrev StorageV := List (Str × EntryV)

/-- `e.expiry != nil && time.Now().After(*e.expiry)`. -/
def entryExpiredV (e : EntryV) (now : Int) : Bool :=
  match e.expiry with
  | none => false
  | some t => decide (t < now)

/-- `Storage.Set` from `src/unnamed/part_004`. -/
def storageSetV (st : StorageV) (k : Str) (v : StoredVal) (exp : Option Int) : StorageV :=
  mapSet st k ⟨v, exp⟩

/-- `Storage.Get` from `src/unnamed/part_004`: an expired entry is deleted
and reported absent; pairs Go's `(value, exists)` with the post-call map. -/
def storageGetV (st : StorageV) (k : Str) (now : Int) : Option StoredVal × StorageV :=
  match mapGet st k with
  | none => (none, st)
  | some e =>
    if entryExpiredV e now then (none, mapDel st k)
    else (some e.value, st)

/-- `strings.Index(s, sub)`: position of the first occurrence, `none` for
Go's `-1`. -/
def goIndexAux (sub : Str) : Str → Option Nat
  | [] => if sub.isEmpty then some 0 else none
  | c :: t => if sub.isPrefixOf (c :: t) then some 0 else (goIndexAux sub t).map (· + 1)

/-- The in-order part-search loop of `MatchPattern` (`src/unnamed/part_000`):
skip empty parts, find each part at or after the current position. -/
def matchParts (str : Str) : List Str → Nat → Bool
  | [], _ => true
  | part :: rest, pos =>
    if part = [] then matchParts str rest pos
    else
      match goIndexAux part (str.drop pos) with
      | none => false
      | some idx => matchParts str rest (pos + idx + part.length)

/-- `utils.MatchPattern` from `src/unnamed/part_000`: `*` matches all;
patterns containing `*` are split on `*` and matched by anchored first and
last parts plus in-order containment; otherwise exact equality. -/
def matchPattern (pattern str : Str) : Bool :=
  if pattern = [42] then true
  else if pattern.contains 42 then
    let parts := splitOnSep 42 pattern
    let first := parts.headD []
    let lastPart := parts.getLastD []
    if first.length > 0 && !(first.isPrefixOf str) then false
    else if lastPart.length > 0 && !(lastPart.isSuffixOf str) then false
    else matchParts str parts 0
  else decide (pattern = str)

/-- `Storage.Keys` from `src/unnamed/part_004`: every key whose entry is
not yet expired and whose name matches (`pattern == "*"` short-circuits). -/
def keysV (st : StorageV) (pattern : Str) (now : Int) : List Str :=
  (st.filter (fun p => !entryExpiredV p.2 now
      && (decide (pattern = [42]) || matchPattern pattern p.1))).map Prod.fst

/-- A `Keys` observation paired with the post-call map state: the Go method
iterates under the read lock and performs no deletion, so the state is the
same map. -/
def keysObserveV (st : StorageV) (pattern : Str) (now : Int) : List Str × StorageV :=
  (keysV st pattern now, st)

/-- `TypeCommand.Execute` from `string.go`: absent (or expired) key answers
`+none`; otherwise dispatch on the stored value's dynamic type. -/
def typeExecute (args : List Str) (now : Int) (st : StorageV) : RValue × StorageV :=
  let key := args.headD []
  match storageGetV st key now with
  | (none, st2) => (.simpleString (strB "none"), st2)
  | (some v, st2) =>
    match v with
    | .str _ => (.simpleString (strB "string"), st2)
    | .stream _ => (.simpleString (strB "stream"), st2)

theorem mem_eq_of_mapGet_nodup {α : Type} :
    ∀ (st : List (Str × α)) (k : Str) (e : α) (p : Str × α),
    mapGet st k = some e → p ∈ st → p.1 = k → (st.map Prod.fst).Nodup → p.2 = e := by
  intro st
  induction st with
  | nil => intro k e p hg hp; simp at hp
  | cons q rest ih =>
    intro k e p hg hp hpk hnd
    obtain ⟨k0, v0⟩ := q
    simp only [List.map_cons, List.nodup_cons] at hnd
    rcases List.mem_cons.mp hp with h | h
    · rw [h] at hpk ⊢
      simp only at hpk ⊢
      rw [mapGet, if_pos hpk] at hg
      exact Option.some.inj hg
    · by_cases hk0 : k0 = k
      · exfalso
        apply hnd.1
        have hmm : p.1 ∈ List.map Prod.fst rest := List.mem_map_of_mem Prod.fst h
        rw [hpk, ← hk0] at hmm
        exact hmm
      · rw [mapGet, if_neg hk0] at hg
        exact ih k e p hg h hpk hnd.2

/-- C3 (amended): for an entry with expiry in the past, a `GET` observation
reports the key absent and removes the entry, `TYPE` answers `+none` and
removes the entry, while `KEYS` omits the key from its answer but leaves
the storage map unchanged (the entry is only removed later, by a read or
the background purge). -/
theorem expired_observation (k : Str) (e : EntryV) (t now : Int) (pat : Str) (st : StorageV)
    (hmem : mapGet st k = some e) (hexp : e.expiry = some t) (ht : t < now)
    (hnd : (st.map Prod.fst).Nodup) :
    storageGetV st k now = (none, mapDel st k) ∧
    typeExecute [k] now st = (.simpleString (strB "none"), mapDel st k) ∧
    keysObserveV st pat now = (keysV st pat now, st) ∧
    k ∉ keysV st pat now := by
  have hex : entryExpiredV e now = true := by
    unfold entryExpiredV
    rw [hexp]
    simpa using ht
  have hget : storageGetV st k now = (none, mapDel st k) := by
    unfold storageGetV
    rw [hmem]
    dsimp only
    rw [if_pos hex]
  refine ⟨hget, ?_, rfl, ?_⟩
  · unfold typeExecute
    dsimp only
    rw [show ([k] : List Str).headD [] = k from rfl, hget]
  · intro hk
    unfold keysV at hk
    obtain ⟨p, hp, hpk⟩ := List.mem_map.mp hk
    have hpf := List.mem_filter.mp hp
    have hpe : p.2 = e := mem_eq_of_mapGet_nodup st k e p hmem hpf.1 hpk hnd
    have := hpf.2
    rw [hpe, hex] at this
    simp at this

/-- C3 (witness): with `k` expired at t=5 and observed at t=10, `GET`
removes it, `TYPE` answers `+none`, and `KEYS *` omits it while leaving the
map unchanged. -/
theorem expired_observation_witness :
    storageGetV [(strB "k", ⟨.str (strB "v"), some 5⟩)] (strB "k") 10
        = (none, mapDel [(strB "k", ⟨.str (strB "v"), some 5⟩)] (strB "k")) ∧
    typeExecute [strB "k"] 10 [(strB "k", ⟨.str (strB "v"), some 5⟩)]
        = (.simpleString (strB "none"), mapDel [(strB "k", ⟨.str (strB "v"), some 5⟩)] (strB "k")) ∧
    keysObserveV [(strB "k", ⟨.str (strB "v"), some 5⟩)] [42] 10
        = (keysV [(strB "k", ⟨.str (strB "v"), some 5⟩)] [42] 10,
           [(strB "k", ⟨.str (strB "v"), some 5⟩)]) ∧
    strB "k" ∉ keysV [(strB "k", ⟨.str (strB "v"), some 5⟩)] [42] 10 :=
  expired_observation (strB "k") ⟨.str (strB "v"), some 5⟩ 5 10 [42]
    [(strB "k", ⟨.str (strB "v"), some 5⟩)] rfl rfl (by decide) (by decide)

/-- C3 (counterexample): a `KEYS` observation past an entry's expiry omits
the key from the answer but does not remove the entry: the post-call map
still holds it, contradicting the claim that every such observation removes
the entry. -/
theorem expired_keys_not_removed :
    (keysObserveV [(strB "k", ⟨.str (strB "v"), some 5⟩)] [42] 10).1 = [] ∧
    (keysObserveV [(strB "k", ⟨.str (strB "v"), some 5⟩)] [42] 10).2
        = [(strB "k", ⟨.str (strB "v"), some 5⟩)] ∧
    mapGet (keysObserveV [(strB "k", ⟨.str (strB "v"), some 5⟩)] [42] 10).2 (strB "k")
        = some ⟨.str (strB "v"), some 5⟩ :=
  ⟨rfl, rfl, rfl⟩

/-! ## Streams: `CompareStreamIDs` (`src/unnamed/part_005`) and XADD ID
handling (`stream.go`, the revision at lines 232-294 with the `0-0` guard,
`*`, `<ms>-*` and explicit forms) -/

/-- `"<ms>-<seq>"` as printed by `fmt.Sprintf("%d-%d", ms, seq)` with
unsigned components. -/
def mkId (ms seq : Nat) : Str := natDec ms ++ 45 :: natDec seq

/-- `"<ms>-<seq>"` with a signed (int64) millisecond component. -/
def mkIdI (ms : Int) (seq : Nat) : Str := intDec ms ++ 45 :: natDec seq

/-- `"<ms>-*"`. -/
def mkStarId (ms : Nat) : Str := natDec ms ++ [45, 42]

/-- Go's `uint64(ms)` conversion of an int64 (two's-complement wrap). -/
def uint64OfInt (ms : Int) : Nat := (ms % (U64 : Int)).toNat

/-- `CompareStreamIDs` from `src/unnamed/part_005`: split both IDs on `-`,
compare the (leniently parsed) millisecond fields, and only when they are
equal index the segment after `-` of each ID — `parts[1]` panics
(`Option.none` here) when the ID contains no `-`. -/
def compareStreamIDs (id1 id2 : Str) : Option Int :=
  let parts1 := splitOnSep 45 id1
  let parts2 := splitOnSep 45 id2
  let ts1 := parseIntLenient (parts1.headD [])
  let ts2 := parseIntLenient (parts2.headD [])
  if ts1 < ts2 then some (-1)
  else if ts2 < ts1 then some 1
  else
    match parts1.drop 1 with
    | [] => none
    | p1 :: _ =>
      match parts2.drop 1 with
      | [] => none
      | p2 :: _ =>
        let seq1 := parseIntLenient p1
        let seq2 := parseIntLenient p2
        if seq1 < seq2 then some (-1)
        else if seq2 < seq1 then some 1
        else some 0

/-- `parseExistingID` from `stream.go`: `(0, 0)` unless the ID splits into
exactly two `-`-separated parts, which are parsed leniently as uint64. -/
def parseExistingID (id : Str) : Nat × Nat :=
  let parts := splitOnSep 45 id
  if parts.length ≠ 2 then (0, 0)
  else (parseUintLenient (parts.headD []), parseUintLenient ((parts.drop 1).headD []))

/-- Outcome of XADD ID validation: an accepted (possibly generated) ID, an
error frame text, or a Go runtime panic. -/
inductive XOut
  | ok (id : Str)
  | errf (msg : Str)
  | panicked

/-- `parseStreamID` from `stream.go` (lines 232-294): reject the literal
`0-0`; `*` auto-generates `now_ms-seq` (seq bumps on equal ms of the last
entry); `<ms>-*` auto-generates the sequence (`last.seq+1` on equal ms, `0`
otherwise, `1` when the stream is empty and ms is 0; ms below the last
entry's is an error); an explicit ID is compared against the last entry via
`CompareStreamIDs` (which can panic) and rejected unless strictly greater.
`nowMs` stands for `time.Now().UnixMilli()`. -/
def parseStreamID (id : Str) (nowMs : Int) (entries : List SEntry) : XOut :=
  if id = strB "0-0" then
    .errf (strB "ERR The ID specified in XADD must be greater than 0-0")
  else if id = [42] then
    let seq : Nat :=
      match entries.getLast? with
      | none => 0
      | some lastE =>
        let p := parseExistingID lastE.id
        if p.1 = uint64OfInt nowMs then (p.2 + 1) % U64 else 0
    .ok (mkIdI nowMs seq)
  else if id.contains 42 then
    let parts := splitOnSep 45 id
    if parts.length ≠ 2 ∨ (parts.drop 1).headD [] ≠ [42] then
      .errf (strB "ERR Invalid stream ID specified as stream command argument")
    else
      match parseUintGo (parts.headD []) with
      | none => .errf (strB "ERR Invalid stream ID specified as stream command argument")
      | some ms =>
        match entries.getLast? with
        | some lastE =>
          let p := parseExistingID lastE.id
          let seq := if p.1 = ms then (p.2 + 1) % U64 else 0
          if ms < p.1 then
            .errf (strB "ERR The ID specified in XADD is equal or smaller than the target stream top item")
          else .ok (mkId ms seq)
        | none =>
          .ok (mkId ms (if ms = 0 then 1 else 0))
  else
    match entries.getLast? with
    | none => .ok id
    | some lastE =>
      match compareStreamIDs id lastE.id with
      | none => .panicked
      | some c =>
        if c ≤ 0 then
          .errf (strB "ERR The ID specified in XADD is equal or smaller than the target stream top item")
        else .ok id

/-- `XAddCommand.Execute` (`stream.go` lines 179-221) restricted to the
stream it operates on: validate/generate the ID, append the entry, and
answer the ID as a bulk string; an error yields an error frame and no
append; `none` is a Go panic inside `CompareStreamIDs`. -/
def xaddExecute (entries : List SEntry) (id : Str) (fields : List (Str × Str))
    (nowMs : Int) : Option (RValue × List SEntry) :=
  match parseStreamID id nowMs entries with
  | .ok newId => some (.bulkString newId, entries ++ [⟨newId, fields⟩])
  | .errf m => some (.errorVal m, entries)
  | .panicked => none

theorem splitOnSep_mkId (a b : Nat) : splitOnSep 45 (mkId a b) = [natDec a, natDec b] := by
  unfold mkId
  rw [splitOnSep_append 45 _ _ (not_sep_natDec a 45 (Or.inl (by omega))),
    splitOnSep_no_sep 45 _ (not_sep_natDec b 45 (Or.inl (by omega)))]

theorem parseExistingID_mkId (a b : Nat) (ha : a < U64) (hb : b < U64) :
    parseExistingID (mkId a b) = (a, b) := by
  unfold parseExistingID
  rw [splitOnSep_mkId]
  simp only [List.length_cons, List.length_nil, List.headD, List.drop]
  rw [if_neg (by omega)]
  rw [parseUintLenient_natDec a ha, parseUintLenient_natDec b hb]

theorem compareStreamIDs_mkId (a b c d : Nat) (ha : a < I63) (hb : b < I63)
    (hc : c < I63) (hd : d < I63) :
    compareStreamIDs (mkId a b) (mkId c d)
      = some (if a < c then -1 else if c < a then 1
              else if b < d then -1 else if d < b then 1 else 0) := by
  unfold compareStreamIDs
  rw [splitOnSep_mkId, splitOnSep_mkId]
  simp only [List.headD, List.drop]
  rw [parseIntLenient_natDec a ha, parseIntLenient_natDec c hc,
    parseIntLenient_natDec b hb, parseIntLenient_natDec d hd]
  by_cases h1 : a < c
  · rw [if_pos (by exact_mod_cast h1), if_pos h1]
  · rw [if_neg (by exact_mod_cast h1), if_neg h1]
    by_cases h2 : c < a
    · rw [if_pos (by exact_mod_cast h2), if_pos h2]
    · rw [if_neg (by exact_mod_cast h2), if_neg h2]
      by_cases h3 : b < d
      · rw [if_pos (by exact_mod_cast h3), if_pos h3]
      · rw [if_neg (by exact_mod_cast h3), if_neg h3]
        by_cases h4 : d < b
        · rw [if_pos (by exact_mod_cast h4), if_pos h4]
        · rw [if_neg (by exact_mod_cast h4), if_neg h4]

theorem compareStreamIDs_values (id1 id2 : Str) (c : Int)
    (h : compareStreamIDs id1 id2 = some c) : c = -1 ∨ c = 0 ∨ c = 1 := by
  unfold compareStreamIDs at h
  dsimp only at h
  split at h
  · exact Or.inl (Option.some.inj h).symm
  · split at h
    · exact Or.inr (Or.inr (Option.some.inj h).symm)
    · split at h
      · exact absurd h (by simp)
      · split at h
        · exact absurd h (by simp)
        · split at h
          · exact Or.inl (Option.some.inj h).symm
          · split at h
            · exact Or.inr (Or.inr (Option.some.inj h).symm)
            · exact Or.inr (Or.inl (Option.some.inj h).symm)

theorem mkStarId_ne_00 (ms : Nat) : mkStarId ms ≠ strB "0-0" := by
  intro he
  have h42 : (42 : Nat) ∈ mkStarId ms := by
    unfold mkStarId
    simp
  rw [he] at h42
  revert h42
  decide

theorem mkStarId_ne_star (ms : Nat) : mkStarId ms ≠ [42] := by
  intro he
  have := congrArg List.length he
  unfold mkStarId at this
  simp only [List.length_append, List.length_cons, List.length_nil] at this
  have hne := natDec_ne_nil ms
  have : (natDec ms).length ≠ 0 := fun h => hne (List.length_eq_zero.mp h)
  omega

theorem mkStarId_contains (ms : Nat) : (mkStarId ms).contains 42 = true := by
  unfold mkStarId
  simp [List.contains]

theorem splitOnSep_mkStarId (ms : Nat) :
    splitOnSep 45 (mkStarId ms) = [natDec ms, [42]] := by
  unfold mkStarId
  rw [show (natDec ms ++ [45, 42] : Str) = natDec ms ++ 45 :: [42] from rfl,
    splitOnSep_append 45 _ _ (not_sep_natDec ms 45 (Or.inl (by omega))),
    splitOnSep_no_sep 45 [42] (by decide)]

theorem parseStreamID_msstar (ms : Nat) (hms : ms < U64) (nowMs : Int)
    (entries : List SEntry) :
    parseStreamID (mkStarId ms) nowMs entries =
      (match entries.getLast? with
       | none => .ok (mkId ms (if ms = 0 then 1 else 0))
       | some lastE =>
         if ms < (parseExistingID lastE.id).1 then
           .errf (strB "ERR The ID specified in XADD is equal or smaller than the target stream top item")
         else .ok (mkId ms (if (parseExistingID lastE.id).1 = ms
                            then ((parseExistingID lastE.id).2 + 1) % U64 else 0))) := by
  unfold parseStreamID
  rw [if_neg (mkStarId_ne_00 ms), if_neg (mkStarId_ne_star ms), if_pos (mkStarId_contains ms)]
  dsimp only
  rw [splitOnSep_mkStarId]
  rw [if_neg (by simp : ¬ (([natDec ms, [42]] : List Str).length ≠ 2
      ∨ (([natDec ms, [42]] : List Str).drop 1).headD [] ≠ [42]))]
  rw [show ([natDec ms, [42]] : List Str).headD [] = natDec ms from rfl,
    parseUintGo_natDec ms hms]
  cases entries.getLast? <;> rfl

/-- C5: for `XADD` with an ID of the form `<ms>-*`, the assigned sequence is
`last.seq+1` when the last entry has the same ms, else `0`, except that on
an empty stream with `ms = 0` it is `1`; when the ms is below the last
entry's the command errors instead; the assigned `<ms>-<seq>` is answered
as a bulk string and appended. -/
theorem xadd_msstar (ms : Nat) (hms : ms < U64) (nowMs : Int)
    (fields : List (Str × Str)) :
    (xaddExecute [] (mkStarId ms) fields nowMs
      = some (.bulkString (mkId ms (if ms = 0 then 1 else 0)),
              [⟨mkId ms (if ms = 0 then 1 else 0), fields⟩])) ∧
    (∀ (es : List SEntry) (lastE : SEntry) (lms lseq : Nat),
      lastE.id = mkId lms lseq → lms < U64 → lseq + 1 < U64 →
      xaddExecute (es ++ [lastE]) (mkStarId ms) fields nowMs =
        if ms < lms then
          some (.errorVal (strB "ERR The ID specified in XADD is equal or smaller than the target stream top item"),
                es ++ [lastE])
        else
          some (.bulkString (mkId ms (if lms = ms then lseq + 1 else 0)),
                (es ++ [lastE]) ++ [⟨mkId ms (if lms = ms then lseq + 1 else 0), fields⟩])) := by
  constructor
  · unfold xaddExecute
    rw [parseStreamID_msstar ms hms nowMs []]
    rfl
  · intro es lastE lms lseq hlast hlms hlseq
    unfold xaddExecute
    rw [parseStreamID_msstar ms hms nowMs (es ++ [lastE]), List.getLast?_concat]
    dsimp only
    rw [hlast, parseExistingID_mkId lms lseq hlms (by omega)]
    dsimp only
    by_cases hlt : ms < lms
    · rw [if_pos hlt, if_pos hlt]
    · rw [if_neg hlt, if_neg hlt]
      by_cases heq : lms = ms
      · rw [if_pos heq, if_pos heq, Nat.mod_eq_of_lt hlseq]
      · rw [if_neg heq, if_neg heq]

/-- C5 (witness): on a stream whose last entry is `1-1`, `XADD s 1-* k v`
appends and answers the bulk string `1-2`. -/
theorem xadd_msstar_witness :
    xaddExecute [⟨strB "1-1", []⟩] (mkStarId 1) [] 99 =
      some (.bulkString (mkId 1 2), [⟨strB "1-1", []⟩, ⟨mkId 1 2, []⟩]) := by
  have h := (xadd_msstar 1 (by decide) 99 []).2 [] ⟨strB "1-1", []⟩ 1 1
    (by decide) (by decide) (by decide)
  rw [if_neg (by omega)] at h
  rw [show ([] ++ [(⟨strB "1-1", []⟩ : SEntry)] : List SEntry) = [⟨strB "1-1", []⟩] from rfl] at h
  rw [h]
  rfl

/-- C6 (amended): on a non-empty stream whose last ID is a well-formed
`<ms>-<seq>` with components below 2^63, every ID accepted by XADD compares
strictly greater than the last entry's (`CompareStreamIDs = 1`) — for
explicit IDs and `<ms>-*` IDs (whose parsed ms must fit in int64)
unconditionally, and for the fully-automatic `*` ID provided the wall clock
`now_ms` is at least the last entry's ms (the code does not guard against a
clock behind the stream, where `*` silently appends a smaller ID). -/
theorem xadd_monotone (es : List SEntry) (lastE : SEntry) (lms lseq : Nat)
    (hlast : lastE.id = mkId lms lseq) (hlms : lms < I63) (hlseq : lseq + 1 < I63)
    (id : Str) (nowMs : Int) (newId : Str)
    (hstar : id = [42] → (lms : Int) ≤ nowMs ∧ nowMs < (I63 : Int))
    (hmsb : ∀ ms, parseUintGo ((splitOnSep 45 id).headD []) = some ms → ms < I63)
    (hok : parseStreamID id nowMs (es ++ [lastE]) = .ok newId) :
    compareStreamIDs newId lastE.id = some 1 := by
  unfold parseStreamID at hok
  by_cases h00 : id = strB "0-0"
  · rw [if_pos h00] at hok
    exact XOut.noConfusion hok
  rw [if_neg h00] at hok
  by_cases hst : id = [42]
  · rw [if_pos hst] at hok
    obtain ⟨hge0, hlt0⟩ := hstar hst
    have hnn : (0 : Int) ≤ nowMs := le_trans (by positivity) hge0
    have hu : uint64OfInt nowMs = nowMs.toNat := by
      show (nowMs % (U64 : Int)).toNat = nowMs.toNat
      unfold U64
      unfold I63 at hlt0
      omega
    rw [List.getLast?_concat] at hok
    dsimp only at hok
    rw [hlast, parseExistingID_mkId lms lseq (by unfold I63 at hlms; unfold U64; omega)
      (by unfold I63 at hlseq; unfold U64; omega), hu] at hok
    have hmkI : ∀ sq : Nat, mkIdI nowMs sq = mkId nowMs.toNat sq := by
      intro sq
      unfold mkIdI mkId intDec
      rw [if_neg (by omega : ¬ nowMs < 0)]
      have : nowMs.natAbs = nowMs.toNat := by omega
      rw [this]
    rw [hmkI] at hok
    have hnew := (XOut.ok.inj hok).symm
    rw [hnew, hlast]
    have htn : (lms : Int) ≤ (nowMs.toNat : Int) := by omega
    have htlt : nowMs.toNat < I63 := by unfold I63 at hlt0 ⊢; omega
    by_cases heq : lms = nowMs.toNat
    · rw [if_pos heq, Nat.mod_eq_of_lt (by unfold I63 at hlseq; unfold U64; omega)]
      rw [compareStreamIDs_mkId _ _ _ _ htlt hlseq hlms (by omega)]
      rw [if_neg (by omega), if_neg (by omega), if_neg (by omega), if_pos (by omega)]
    · rw [if_neg heq]
      rw [compareStreamIDs_mkId _ _ _ _ htlt (by unfold I63; omega) hlms (by omega)]
      have : lms < nowMs.toNat := by omega
      rw [if_neg (by omega), if_pos this]
  rw [if_neg hst] at hok
  by_cases hcont : id.contains 42 = true
  · rw [if_pos hcont] at hok
    dsimp only at hok
    by_cases hguard : (splitOnSep 45 id).length ≠ 2
        ∨ ((splitOnSep 45 id).drop 1).headD [] ≠ [42]
    · rw [if_pos hguard] at hok
      exact XOut.noConfusion hok
    rw [if_neg hguard] at hok
    match hpu : parseUintGo ((splitOnSep 45 id).headD []) with
    | none =>
      rw [hpu] at hok
      exact XOut.noConfusion hok
    | some ms =>
      rw [hpu] at hok
      have hmsI : ms < I63 := hmsb ms hpu
      rw [List.getLast?_concat] at hok
      dsimp only at hok
      rw [hlast, parseExistingID_mkId lms lseq (by unfold I63 at hlms; unfold U64; omega)
        (by unfold I63 at hlseq; unfold U64; omega)] at hok
      dsimp only at hok
      by_cases hlt : ms < lms
      · rw [if_pos hlt] at hok
        exact XOut.noConfusion hok
      · rw [if_neg hlt] at hok
        have hnew := (XOut.ok.inj hok).symm
        rw [hnew, hlast]
        by_cases heq : lms = ms
        · rw [if_pos heq, Nat.mod_eq_of_lt (by unfold I63 at hlseq; unfold U64; omega)]
          rw [compareStreamIDs_mkId _ _ _ _ hmsI hlseq hlms (by omega)]
          rw [if_neg (by omega), if_neg (by omega), if_neg (by omega), if_pos (by omega)]
        · rw [if_neg heq]
          rw [compareStreamIDs_mkId _ _ _ _ hmsI (by unfold I63; omega) hlms (by omega)]
          rw [if_neg (by omega), if_pos (by omega)]
  · rw [if_neg hcont, List.getLast?_concat] at hok
    dsimp only at hok
    match hcmp : compareStreamIDs id lastE.id with
    | none =>
      rw [hcmp] at hok
      exact XOut.noConfusion hok
    | some c =>
      rw [hcmp] at hok
      dsimp only at hok
      by_cases hle : c ≤ 0
      · rw [if_pos hle] at hok
        exact XOut.noConfusion hok
      · rw [if_neg hle] at hok
        have hnew := (XOut.ok.inj hok).symm
        rcases compareStreamIDs_values id lastE.id c hcmp with h | h | h
        · omega
        · omega
        · rw [hnew, hcmp, h]

/-- C6 (witness): appending the explicit ID `2-2` after last entry `1-1`
is accepted and compares strictly greater. -/
theorem xadd_monotone_witness :
    compareStreamIDs (strB "2-2") (SEntry.mk (strB "1-1") []).id = some 1 :=
  xadd_monotone [] ⟨strB "1-1", []⟩ 1 1 rfl (by decide) (by decide)
    (strB "2-2") 0 (strB "2-2")
    (fun h => absurd h (by decide))
    (fun ms h => by
      rw [show parseUintGo ((splitOnSep 45 (strB "2-2")).headD []) = some 2 from rfl] at h
      have : ms = 2 := (Option.some.inj h).symm
      rw [this]
      decide)
    (by rfl)

/-- C6 (counterexample): with the stream's last entry at `5-0` (set by an
explicit XADD) and the wall clock at 1 ms, `XADD s *` is accepted and
appends `1-0`, which compares strictly smaller than the previous last
entry — the claim's universal monotonicity fails. -/
theorem xadd_monotone_cex :
    parseStreamID [42] 1 [⟨strB "5-0", []⟩] = .ok (strB "1-0") ∧
    compareStreamIDs (strB "1-0") (strB "5-0") = some (-1) := by
  constructor
  · rfl
  · rfl

/-- C10 (amended): `CompareStreamIDs` indexes the segment after `-` only
when the two millisecond fields parse equal, so the comparison returns a
result whenever the ms fields differ or both IDs contain a `-`; but an
explicit ID with no `-` separator compared against a last entry whose ms
field parses equal hits an out-of-range index — a runtime panic — so the
validation step is not total. -/
theorem compare_total_cases (id1 id2 : Str)
    (h : parseIntLenient ((splitOnSep 45 id1).headD [])
           ≠ parseIntLenient ((splitOnSep 45 id2).headD [])
       ∨ (2 ≤ (splitOnSep 45 id1).length ∧ 2 ≤ (splitOnSep 45 id2).length)) :
    ∃ c, compareStreamIDs id1 id2 = some c := by
  unfold compareStreamIDs
  dsimp only
  by_cases h1 : parseIntLenient ((splitOnSep 45 id1).headD [])
      < parseIntLenient ((splitOnSep 45 id2).headD [])
  · exact ⟨-1, by rw [if_pos h1]⟩
  · rw [if_neg h1]
    by_cases h2 : parseIntLenient ((splitOnSep 45 id2).headD [])
        < parseIntLenient ((splitOnSep 45 id1).headD [])
    · exact ⟨1, by rw [if_pos h2]⟩
    · rw [if_neg h2]
      have heq : parseIntLenient ((splitOnSep 45 id1).headD [])
          = parseIntLenient ((splitOnSep 45 id2).headD []) := by omega
      rcases h with hne | ⟨hl1, hl2⟩
      · exact absurd heq hne
      · match hd1 : (splitOnSep 45 id1).drop 1 with
        | [] =>
          exfalso
          have := congrArg List.length hd1
          simp only [List.length_drop, List.length_nil] at this
          omega
        | p1 :: r1 =>
          match hd2 : (splitOnSep 45 id2).drop 1 with
          | [] =>
            exfalso
            have := congrArg List.length hd2
            simp only [List.length_drop, List.length_nil] at this
            omega
          | p2 :: r2 =>
            dsimp only
            refine ⟨if parseIntLenient p1 < parseIntLenient p2 then -1
                    else if parseIntLenient p2 < parseIntLenient p1 then 1 else 0, ?_⟩
            split_ifs <;> rfl

/-- C10 (witness): the malformed explicit ID `5` against last entry `1-1`
(different ms fields) is compared without reaching the out-of-range index. -/
theorem compare_total_witness :
    ∃ c, compareStreamIDs (strB "5") (strB "1-1") = some c :=
  compare_total_cases (strB "5") (strB "1-1") (Or.inl (by decide))

/-- C10 (counterexample): the explicit ID `5` (no `-`) against a non-empty
stream whose last entry is `5-0` makes `CompareStreamIDs` index `parts1[1]`
out of range — XADD panics instead of returning a result. -/
theorem compare_panic_cex :
    compareStreamIDs (strB "5") (strB "5-0") = none ∧
    parseStreamID (strB "5") 0 [⟨strB "5-0", []⟩] = .panicked ∧
    xaddExecute [⟨strB "5-0", []⟩] (strB "5") [] 0 = none :=
  ⟨rfl, rfl, rfl⟩

/-! ## Snapshot reader: length decoding (`internal/logger/logger.go`)

`Loader.readLength` dispatches on the top two bits of the first byte.  In
the `01` case the Go source computes `uint64((firstByte&0x3F)<<8) |
uint64(nextByte)`: the shift `(firstByte&0x3F)<<8` is evaluated at type
`byte` and truncates to 0 before the widening conversion — embedded below
as `% 256`. -/

/-- `Loader.readLength` from `logger.go` (lines 296-332) over the remaining
input bytes, paired with the rest of the input; `none` is a read error. -/
def readLength (l : Str) : Option (Nat × Str) :=
  match l with
  | [] => none
  | b :: rest =>
    let encType := (b &&& 0xC0) >>> 6
    if encType = 0 then some (b &&& 0x3F, rest)
    else if encType = 1 then
      match rest with
      | [] => none
      | nb :: rest2 => some ((((b &&& 0x3F) <<< 8) % 256) ||| nb, rest2)
    else if encType = 2 then
      match rest with
      | b1 :: b2 :: b3 :: b4 :: rest2 =>
        some (b1 * 16777216 + b2 * 65536 + b3 * 256 + b4, rest2)
      | _ => none
    else some (b, rest)

/-- C8: on input bytes `41 02` (top bits `01`, low six bits 1, next byte 2)
the claimed 14-bit big-endian decoding is `1*256 + 2 = 258`, but
`readLength` answers 2 — the byte-width shift truncates the high six bits
to zero, contradicting the code's own comment ("combined 14 bits represent
the length") and the spec. -/
theorem readLength_case01_bug :
    readLength [0x41, 0x02] = some (2, []) ∧
    (0x41 &&& 0x3F) * 256 + 0x02 = 258 ∧
    readLength [0x41, 0x02] ≠ some (258, []) := by
  refine ⟨rfl, rfl, ?_⟩
  decide

/-! ## WAIT (`internal/commands/wait.go`)

`WaitCommand.Execute` validates its arguments and calls
`Server.WaitForReplicas` through the `serverWaiter` interface; no
implementation of `WaitForReplicas` appears under src/, so the waiter
itself is modelled from the spec (§4.G). -/

/-- Master-side state seen by WAIT: the connected replicas' last
acknowledged offsets, the propagation offset at call start, and whether
writes have been propagated since the last ACK. -/
structure MasterM where
  replicas : List Nat
  masterReplOffset : Nat
  pendingWrites : Bool

/-- The number of replicas whose last acked offset has reached `target`. -/
def countSynced (offsets : List Nat) (target : Nat) : Nat :=
  (offsets.filter (fun o => decide (target ≤ o))).length

/-- Modelled from the spec: the ack-waiting loop of `Server.WaitForReplicas`
(absent from src/; only the `serverWaiter` interface in `wait.go` declares
it).  §4.G: "wait until either #\x7br : r.last_acked_offset ≥
propagation_offset_at_call_start\x7d ≥ numreplicas or the deadline
expires".  Successive elements of `updates` are the replica offset vectors
observed before the deadline; the loop stops as soon as the count reaches
`need`, else runs to the deadline. -/
def waitAckLoop (target need : Nat) : List (List Nat) → List Nat → List Nat
  | [], cur => cur
  | upd :: rest, cur =>
    if need ≤ countSynced cur target then cur else waitAckLoop target need rest upd

/-- Modelled from the spec: `Server.WaitForReplicas` (absent from src/).
§4.G: if no writes have been propagated since the last ACK, all connected
replicas are in sync and the response is `len(replicas)` with no broadcast;
otherwise `REPLCONF GETACK *` is broadcast to all replicas and the count of
replicas acked up to the call-start propagation offset is returned, at the
early-exit threshold or at the deadline.  The boolean records whether the
broadcast happened. -/
def waitForReplicas (m : MasterM) (need : Nat) (updates : List (List Nat)) : Bool × Nat :=
  if m.pendingWrites = false then (false, m.replicas.length)
  else (true, countSynced (waitAckLoop m.masterReplOffset need updates m.replicas)
                m.masterReplOffset)

/-- `WaitCommand.Execute` from `wait.go`: arity check, `Atoi` validation of
`numreplicas` and `timeout` (negatives rejected), fallback to
`len(replicas)` when the server lacks `WaitForReplicas`, else the ack-based
count as an integer reply. -/
def waitExecute (args : List Str) (m : MasterM) (hasWaiter : Bool)
    (updates : List (List Nat)) : RValue :=
  if args.length < 2 then
    .errorVal (strB "ERR wrong number of arguments for 'wait' command")
  else
    match atoiGo (args.headD []) with
    | none => .errorVal (strB "ERR invalid numreplicas")
    | some numReplicas =>
      if numReplicas < 0 then .errorVal (strB "ERR invalid numreplicas")
      else
        match atoiGo ((args.drop 1).headD []) with
        | none => .errorVal (strB "ERR invalid timeout")
        | some timeout =>
          if timeout < 0 then .errorVal (strB "ERR invalid timeout")
          else if hasWaiter then
            .integer ((waitForReplicas m numReplicas.toNat updates).2 : Int)
          else .integer (m.replicas.length : Int)

theorem waitAckLoop_spec (target need : Nat) :
    ∀ (updates : List (List Nat)) (cur : List Nat),
    need ≤ countSynced (waitAckLoop target need updates cur) target
      ∨ waitAckLoop target need updates cur = updates.getLastD cur := by
  intro updates
  induction updates with
  | nil => intro cur; exact Or.inr rfl
  | cons upd rest ih =>
    intro cur
    unfold waitAckLoop
    by_cases h : need ≤ countSynced cur target
    · rw [if_pos h]
      exact Or.inl h
    · rw [if_neg h, List.getLastD_cons]
      exact ih upd

/-- C7: `WAIT numreplicas timeout` on a master — when no writes have been
propagated since the last ACK the integer reply is the number of connected
replicas and no GETACK is broadcast; otherwise `REPLCONF GETACK *` is
broadcast and the reply counts the replicas whose last acked offset has
reached the propagation offset at call start, returning at the early-exit
threshold (`count ≥ numreplicas`) or at the deadline. -/
theorem wait_semantics (nr tmo : Nat) (hnr : nr < I63) (hto : tmo < I63)
    (m : MasterM) (updates : List (List Nat)) :
    (m.pendingWrites = false →
      waitExecute [natDec nr, natDec tmo] m true updates
          = .integer (m.replicas.length : Int)
        ∧ (waitForReplicas m nr updates).1 = false) ∧
    (m.pendingWrites = true →
      waitExecute [natDec nr, natDec tmo] m true updates
          = .integer ((countSynced (waitAckLoop m.masterReplOffset nr updates m.replicas)
                       m.masterReplOffset : Nat) : Int)
        ∧ (waitForReplicas m nr updates).1 = true
        ∧ (nr ≤ countSynced (waitAckLoop m.masterReplOffset nr updates m.replicas)
              m.masterReplOffset
           ∨ waitAckLoop m.masterReplOffset nr updates m.replicas
               = updates.getLastD m.replicas)) := by
  have hexec : ∀ hw : Bool, waitExecute [natDec nr, natDec tmo] m hw updates
      = (if hw then .integer ((waitForReplicas m nr updates).2 : Int)
         else .integer (m.replicas.length : Int)) := by
    intro hw
    unfold waitExecute
    rw [if_neg (by simp)]
    rw [show ([natDec nr, natDec tmo] : List Str).headD [] = natDec nr from rfl,
      atoiGo_natDec nr hnr]
    dsimp only
    rw [if_neg (by omega : ¬ (nr : Int) < 0)]
    rw [show (([natDec nr, natDec tmo] : List Str).drop 1).headD [] = natDec tmo from rfl,
      atoiGo_natDec tmo hto]
    dsimp only
    rw [if_neg (by omega : ¬ (tmo : Int) < 0)]
    rw [show ((nr : Int)).toNat = nr from by omega]
  constructor
  · intro hpw
    constructor
    · rw [hexec true, if_pos rfl]
      unfold waitForReplicas
      rw [if_pos hpw]
    · unfold waitForReplicas
      rw [if_pos hpw]
  · intro hpw
    have hpw2 : ¬ m.pendingWrites = false := by rw [hpw]; simp
    refine ⟨?_, ?_, waitAckLoop_spec m.masterReplOffset nr updates m.replicas⟩
    · rw [hexec true, if_pos rfl]
      unfold waitForReplicas
      rw [if_neg hpw2]
    · unfold waitForReplicas
      rw [if_neg hpw2]

/-- C7 (witness): with one of two replicas acked to offset 5 against a
call-start offset of 3 and pending writes, `WAIT 1 100` replies `:1`. -/
theorem wait_semantics_witness :
    waitExecute [natDec 1, natDec 100] ⟨[5, 0], 3, true⟩ true [[5, 3]]
      = .integer 1 := by
  have h := (wait_semantics 1 100 (by decide) (by decide) ⟨[5, 0], 3, true⟩ [[5, 3]]).2 rfl
  rw [h.1]
  rfl

end RedisGo
